import Mathlib

/-!
Verification development for the cryptycoon trading-simulation server
(`src/server/index.js`).

The embedding below translates the server's session/market engine into Lean:

* JavaScript numbers are modelled as rationals (`ℚ`), with the explicit
  decimal roundings (`toFixed`) of the source modelled by `roundTo`.
* JavaScript objects used as string-keyed maps (`session.holdings`,
  `session.market.prices`) are modelled as total functions `String → ℚ`
  where an absent key reads as `0`; this matches the source, which reads
  them with `obj[key] || 0` or guards lookups with JavaScript truthiness
  (so `undefined` and `0` behave identically at every use site modelled
  here).
* Randomness is injected: each call of `Math.random()` in a modelled
  function becomes an explicit `ℚ` argument.
* Network fetches are injected as arguments describing the per-symbol
  parsed responses (`String → Option ℚ`, `none` meaning the symbol's
  request failed or did not parse to a finite number).
-/

namespace Cryptycoon

/-- Rounding to `digits` fractional decimal digits, modelling
`Number(value.toFixed(digits))` from the source. -/
def roundTo (digits : ℕ) (value : ℚ) : ℚ :=
  (round (value * 10 ^ digits) : ℤ) / 10 ^ digits

/-- Source `roundPrice` (`index.js` line 115): round to `PRICE_PRECISION = 4`
fractional digits. -/
def roundPrice (value : ℚ) : ℚ := roundTo 4 value

/-- Source `roundBalance` (`index.js` line 119): round to
`BALANCE_PRECISION = 2` fractional digits. -/
def roundBalance (value : ℚ) : ℚ := roundTo 2 value

/-- Position side. The source stores the strings `'long'` / `'short'`;
positions are only ever created by `handleOrder`, which writes exactly one
of these two strings. -/
inductive Side where
  | long
  | short
deriving DecidableEq, Repr

/-- Open position, as pushed by `handleOrder` (`index.js` lines 427-434).
The source omits the `liquidated` field at creation (reading it yields
`undefined`, which is falsy); the model materialises it as `false`. -/
structure Position where
  symbol : String
  side : Side
  entryPrice : ℚ
  quantity : ℚ
  leverage : ℚ
  margin : ℚ
  liquidated : Bool
deriving DecidableEq, Repr

/-- Session state: the fields of the source's session object
(`createSession`, `index.js` lines 251-266) that the position ledger,
faucet and mark-to-market read or write. `prices` stands for
`session.market.prices`; the candles, order book, bots and cosmetic
metadata are never read by the operations verified here. -/
structure Session where
  holdings : String → ℚ
  positions : List Position
  realizedPnl : ℚ
  unrealizedPnl : ℚ
  prices : String → ℚ
  faucetClaimed : Bool

/-- Effective mark price of a position:
`session.market.prices[symbol] || entryPrice` (`index.js` line 354) —
a missing or zero price falls back to the entry price. -/
def effectivePrice (prices : String → ℚ) (p : Position) : ℚ :=
  if prices p.symbol = 0 then p.entryPrice else prices p.symbol

/-- Per-position unleveraged PnL (`index.js` line 355). -/
def positionPnl (prices : String → ℚ) (p : Position) : ℚ :=
  if p.side = Side.long then
    (effectivePrice prices p - p.entryPrice) * p.quantity
  else
    (p.entryPrice - effectivePrice prices p) * p.quantity

/-- Liquidation price (`index.js` lines 358-360):
`entryPrice * (1 - 1/leverage)` for longs, `entryPrice * (1 + 1/leverage)`
for shorts. -/
def liquidationPrice (p : Position) : ℚ :=
  if p.side = Side.long then
    p.entryPrice * (1 - 1 / p.leverage)
  else
    p.entryPrice * (1 + 1 / p.leverage)

/-- Liquidation trigger (`index.js` line 361): the mark price has crossed
the liquidation price — `px <= liquidationPrice` for a long,
`px >= liquidationPrice` for a short. -/
def crossedB (prices : String → ℚ) (p : Position) : Bool :=
  if p.side = Side.long then
    decide (effectivePrice prices p ≤ liquidationPrice p)
  else
    decide (liquidationPrice p ≤ effectivePrice prices p)

/-- Effect of one `markToMarket` pass on a single position
(`index.js` lines 361-366): a crossed position has its margin and quantity
zeroed and is flagged liquidated; any other position is untouched. -/
def markPosition (prices : String → ℚ) (p : Position) : Position :=
  if crossedB prices p then
    { p with margin := 0, quantity := 0, liquidated := true }
  else
    p

/-- Survivor filter applied at the end of a `markToMarket` pass
(`index.js` line 369): keep positions with `quantity > 0 && !liquidated`. -/
def survivorB (p : Position) : Bool :=
  decide (0 < p.quantity) && !p.liquidated

/-- Source `markToMarket` (`index.js` lines 350-370): accumulate leveraged
PnL of every position (computed before any zeroing) into unrealized PnL,
decrement realized PnL by the margin of every crossed position, zero and
flag crossed positions, then drop non-survivors. -/
def markToMarket (s : Session) : Session :=
  { s with
    unrealizedPnl :=
      roundBalance ((s.positions.map (fun p => positionPnl s.prices p * p.leverage)).sum)
    realizedPnl :=
      s.realizedPnl - ((s.positions.filter (crossedB s.prices)).map Position.margin).sum
    positions := (s.positions.map (markPosition s.prices)).filter survivorB }

/-- Order payload of `place_order` as destructured by `handleOrder`
(`index.js` line 380). `side` is kept as a raw string because the source
compares it with `'buy'` and treats every other value as a sell. The
`leverage = 1` default applies when the field is absent; the model takes
the already-defaulted value. -/
structure Order where
  base : String
  quote : String
  side : String
  size : ℚ
  leverage : ℚ
deriving DecidableEq, Repr

/-- Outcome of `handleOrder`: one of the three error payloads, or the
success payload `{ convertedFromUsd, pairPrice }`. -/
inductive OrderResult where
  | pairNotSupported
  | insufficientBalance
  | insufficientMargin
  | ok (convertedFromUsd : ℚ) (pairPrice : ℚ)
deriving DecidableEq, Repr

/-- Side resolution (`index.js` line 418): `side === 'buy' ? 'long' : 'short'`. -/
def positionSide (side : String) : Side :=
  if side = "buy" then Side.long else Side.short

/-- Position insertion (`index.js` lines 419-435): `find` the first open
position with the same symbol and side and merge the fill into it
(quantity added, entry price re-averaged by quantity, leverage maxed,
margin accumulated); if none exists, push a fresh position at the end. -/
def mergeInto (base : String) (pside : Side) (size pairPrice leverage margin : ℚ) :
    List Position → List Position
  | [] =>
    [{ symbol := base, side := pside, entryPrice := roundPrice pairPrice,
       quantity := size, leverage := leverage, margin := margin, liquidated := false }]
  | p :: rest =>
    if p.symbol = base ∧ p.side = pside then
      { p with
        entryPrice := roundPrice ((p.entryPrice * p.quantity + pairPrice * size) / (p.quantity + size)),
        quantity := p.quantity + size,
        leverage := max p.leverage leverage,
        margin := p.margin + margin } :: rest
    else
      p :: mergeInto base pside size pairPrice leverage margin rest

/-- Pair price (`index.js` line 387): `baseUsd / quoteUsd`. -/
def pairPriceOf (s : Session) (o : Order) : ℚ := s.prices o.base / s.prices o.quote

/-- Cost of the order in quote currency (`index.js` line 388):
`size * pairPrice`. -/
def costInQuoteOf (s : Session) (o : Order) : ℚ := o.size * pairPriceOf s o

/-- Shortfall of the quote holding (`index.js` line 393):
`costInQuote - availableQuote`. -/
def missingOf (s : Session) (o : Order) : ℚ := costInQuoteOf s o - s.holdings o.quote

/-- USD amount the auto-conversion would debit (`index.js` line 395):
`missing * quoteUsd`. -/
def neededUsdOf (s : Session) (o : Order) : ℚ := missingOf s o * s.prices o.quote

/-- Conjunction of the auto-conversion guards (`index.js` lines 392-396):
the quote holding falls short of the cost, the quote is not USD, the USD
holding is positive, and it covers `neededUsd`. -/
def convertB (s : Session) (o : Order) : Bool :=
  decide (s.holdings o.quote < costInQuoteOf s o) && decide (o.quote ≠ "USD") &&
    decide (0 < s.holdings "USD") && decide (neededUsdOf s o ≤ s.holdings "USD")

/-- Holdings after the auto-conversion step (`index.js` line 397): when the
conversion fires, USD is debited by `neededUsd` (rounded); the quote
holding itself is only written later, the converted amount living in the
local `availableQuote`. -/
def convertedHoldings (s : Session) (o : Order) : String → ℚ :=
  if convertB s o then
    Function.update s.holdings "USD" (roundBalance (s.holdings "USD" - neededUsdOf s o))
  else s.holdings

/-- Local `availableQuote` after the conversion step (`index.js` lines
389 and 398): raised by the missing amount exactly when the conversion
fired. -/
def availableQuoteOf (s : Session) (o : Order) : ℚ :=
  if convertB s o then s.holdings o.quote + missingOf s o else s.holdings o.quote

/-- Margin requirement (`index.js` line 408):
`leverage > 1 ? costInQuote / leverage : costInQuote`. -/
def marginOf (s : Session) (o : Order) : ℚ :=
  if 1 < o.leverage then costInQuoteOf s o / o.leverage else costInQuoteOf s o

/-- Source `handleOrder` (`index.js` lines 379-437), returning the result
payload together with the (possibly partially) mutated session. The
transcription follows the source line by line:

* reject `Pair not supported` when either price is falsy (line 384);
* auto-conversion (lines 392-402) via `convertB` / `convertedHoldings` /
  `availableQuoteOf` above; a failing order past this point returns the
  conversion-mutated session, exactly as the source leaves it;
* `Insufficient balance` for a still-short spot order (line 404);
* `Insufficient margin` for a still-short leveraged order (lines 409-411);
* debit the quote holding by `deduction = leverage > 1 ? margin :
  costInQuote`, guarded by `availableQuote >= margin` (lines 413-416);
* merge or push the position (lines 418-435) and return
  `{ convertedFromUsd, pairPrice }`. -/
def handleOrder (s : Session) (o : Order) : OrderResult × Session :=
  if s.prices o.base = 0 ∨ s.prices o.quote = 0 then
    (OrderResult.pairNotSupported, s)
  else
    let s1 : Session := { s with holdings := convertedHoldings s o }
    if availableQuoteOf s o < costInQuoteOf s o ∧ o.leverage = 1 then
      (OrderResult.insufficientBalance, s1)
    else if 1 < o.leverage ∧ availableQuoteOf s o < marginOf s o then
      (OrderResult.insufficientMargin, s1)
    else
      let deduction : ℚ := if 1 < o.leverage then marginOf s o else costInQuoteOf s o
      let holdings2 : String → ℚ :=
        if marginOf s o ≤ availableQuoteOf s o then
          Function.update (convertedHoldings s o) o.quote
            (roundBalance (availableQuoteOf s o - deduction))
        else convertedHoldings s o
      (OrderResult.ok (if convertB s o then neededUsdOf s o else 0)
        (roundPrice (pairPriceOf s o)),
       { s1 with
         holdings := holdings2,
         positions :=
           mergeInto o.base (positionSide o.side) o.size (pairPriceOf s o) o.leverage
             (marginOf s o) s1.positions })

/-- Mode-dependent starting balance (`index.js` line 250):
`mode === 'Admin' ? 10000 : mode === 'Whale' ? 25000 : 1000`. -/
def startingBalance (mode : String) : ℚ :=
  if mode = "Admin" then 10000 else if mode = "Whale" then 25000 else 1000

/-- Source `createSession` (`index.js` lines 247-269), restricted to the
ledger-relevant fields: holdings seeded with the mode's starting balance in
USD, no positions, zero PnL, faucet unclaimed. `prices` abstracts the
snapshot chosen by `buildInitialMarket` for the session's difficulty and
provider. -/
def createSession (mode : String) (prices : String → ℚ) : Session :=
  { holdings := fun sym => if sym = "USD" then startingBalance mode else 0,
    positions := [],
    realizedPnl := 0,
    unrealizedPnl := 0,
    prices := prices,
    faucetClaimed := false }

/-- Source `claim_faucet` handler (`index.js` lines 550-559): a no-op when
the faucet was already claimed or the USD holding is positive; otherwise
the USD holding is set to `10` and the one-shot flag consumed. (In the
source a session whose holdings object lacked a `USD` key would also be a
no-op, since `undefined <= 0` is false; every session is created with a
`USD` key, and the total-function model reads an absent key as `0`.) -/
def claimFaucet (s : Session) : Session :=
  if s.faucetClaimed then s
  else if s.holdings "USD" ≤ 0 then
    { s with holdings := Function.update s.holdings "USD" 10, faucetClaimed := true }
  else s

/-- Tradable asset universe (`index.js` lines 25-39). -/
def assets : List String :=
  ["BTC", "ETH", "ICP", "XCN", "USDT", "DASH", "NEAR", "SOL",
   "USD", "EUR", "JPY", "CNY", "TRY"]

/-- Default seed prices (`initialSeedPrices`, `index.js` lines 69-83,
with the fiat values inlined from `fiatFallback`); symbols outside the
asset universe read as `0` (absent key). -/
def initialSeedPrices : String → ℚ := fun sym =>
  if sym = "BTC" then 67000
  else if sym = "ETH" then 3100
  else if sym = "ICP" then 12
  else if sym = "XCN" then 9 / 10000
  else if sym = "USDT" then 1
  else if sym = "DASH" then 32
  else if sym = "NEAR" then 5
  else if sym = "SOL" then 145
  else if sym = "USD" then 1
  else if sym = "EUR" then 92 / 100
  else if sym = "JPY" then 156
  else if sym = "CNY" then 72 / 10
  else if sym = "TRY" then 32
  else 0

/-- Assets the Binance fetcher requests (`binanceSymbols`, `index.js`
lines 52-59). -/
def binanceAssets : List String :=
  ["BTC", "ETH", "ICP", "DASH", "NEAR", "SOL"]

/-- Assets the CoinGecko fetcher requests (`coingeckoIds`, `index.js`
lines 41-50). -/
def coingeckoAssets : List String :=
  ["BTC", "ETH", "ICP", "XCN", "USDT", "DASH", "NEAR", "SOL"]

/-- Source `fetchBinanceSnapshot` (`index.js` lines 138-159). `raw` gives,
per requested asset, the parsed numeric ticker price (`none` when the
per-symbol request failed or `Number(data?.price)` was not finite; every
rational models a finite parse, so a reported `0` or negative price is
kept, exactly as `Number.isFinite` keeps it). The whole fetch throws when
no symbol succeeded. -/
def fetchBinanceSnapshot (raw : String → Option ℚ) : Option (List (String × ℚ)) :=
  let prices := binanceAssets.filterMap fun a => (raw a).map fun v => (a, v)
  if prices.isEmpty then none else some prices

/-- Source `fetchCoingeckoSnapshot` (`index.js` lines 161-177). A symbol
is kept only when the response's `usd` field is truthy, so a reported `0`
is dropped (but a negative value is kept). The whole fetch throws when no
symbol succeeded. -/
def fetchCoingeckoSnapshot (raw : String → Option ℚ) : Option (List (String × ℚ)) :=
  let prices := coingeckoAssets.filterMap fun a =>
    (raw a).bind fun v => if v = 0 then none else some (a, v)
  if prices.isEmpty then none else some prices

/-- Spread `{ ...initialSeedPrices, ...fetched }` (`index.js` lines 199
and 211): fetched symbols override the seed defaults. -/
def mergeOverSeed (fetched : List (String × ℚ)) : String → ℚ := fun sym =>
  match fetched.lookup sym with
  | some v => v
  | none => initialSeedPrices sym

/-- Binance branch of `refreshProviderSnapshot` (`index.js` lines
195-205): on a successful fetch the cached snapshot becomes the fetched
prices merged over the seed defaults; a failed fetch is caught and leaves
the previous snapshot untouched. -/
def refreshBinanceSnapshot (old : String → ℚ) (raw : String → Option ℚ) : String → ℚ :=
  match fetchBinanceSnapshot raw with
  | none => old
  | some fetched => mergeOverSeed fetched

/-- CoinGecko branch of `refreshProviderSnapshot` (`index.js` lines
207-217), same shape as the Binance branch. -/
def refreshCoingeckoSnapshot (old : String → ℚ) (raw : String → Option ℚ) : String → ℚ :=
  match fetchCoingeckoSnapshot raw with
  | none => old
  | some fetched => mergeOverSeed fetched

/-- Source `applyDifficultyDrift` (`index.js` lines 310-327) with the two
random draws injected: `roll` is the direction roll drawn at the top of
the function, `u` the independent uniform draw used inside the magnitude
expression. Any difficulty other than Easy/Medium/Hard returns the price
unchanged. -/
def applyDifficultyDrift (price : ℚ) (difficulty : String) (bias roll u : ℚ) : ℚ :=
  if difficulty = "Easy" then
    price + (u * (4 / 1000) + 1 / 1000 + bias) * price
  else if difficulty = "Medium" then
    let direction : ℚ := if 55 / 100 < roll then 1 else -1
    price + direction * ((u * (6 / 1000) + 2 / 1000 + |bias|) * price)
  else if difficulty = "Hard" then
    let direction : ℚ := if 35 / 100 < roll then -1 else 1
    price + direction * ((u * (8 / 1000) + 3 / 1000 + |bias|) * price)
  else
    price

/-- Direction branch of the Hard tier (`index.js` line 322,
`roll > 0.35 ? -1 : 1`) over a real-valued roll: the step is upward
exactly when the roll does not exceed `0.35`. -/
def hardStepIsUp (roll : ℝ) : Prop := ¬ ((35 : ℝ) / 100 < roll)

/-- Set of rolls in `[0, 1)` — the range of `Math.random()` — whose Hard
step is upward. -/
def hardUpSet : Set ℝ := {roll | roll ∈ Set.Ico (0 : ℝ) 1 ∧ hardStepIsUp roll}

/-- Per-tick session loop of `tick` (`index.js` lines 486-524), with the
per-session work abstracted as a fallible update `f`. The source iterates
`sessions.forEach(...)` with no try/catch inside the callback, so an
exception thrown while processing one session propagates out of the
iteration: sessions processed before the failure keep their updates,
the failing session and every later one are left as they were, and the
`tick()` promise rejects. -/
def runTickSessions {S E : Type} (f : S → Except E S) : List S → List S
  | [] => []
  | s :: rest =>
    match f s with
    | Except.ok s' => s' :: runTickSessions f rest
    | Except.error _ => s :: rest

/-- Scheduler loop (`index.js` lines 567-569):
`setInterval(() => tick().catch(...))` — the rejection of one tick is
caught and logged, so the next interval always fires another tick. -/
def runTicks {S E : Type} (f : S → Except E S) : ℕ → List S → List S
  | 0, ss => ss
  | n + 1, ss => runTicks f n (runTickSessions f ss)

/-! ### Basic lemmas about rounding -/

theorem roundTo_nonneg (digits : ℕ) (value : ℚ) (h : 0 ≤ value) :
    0 ≤ roundTo digits value := by
  have h10 : (0 : ℚ) < 10 ^ digits := by positivity
  have hz : (0 : ℤ) ≤ round (value * 10 ^ digits) := by
    rw [round_eq]
    refine Int.floor_nonneg.mpr ?_
    have hx : (0 : ℚ) ≤ value * 10 ^ digits := by positivity
    linarith
  exact div_nonneg (by exact_mod_cast hz) h10.le

theorem abs_roundTo_sub (digits : ℕ) (value : ℚ) :
    |roundTo digits value - value| ≤ 1 / (2 * 10 ^ digits) := by
  have h10 : (0 : ℚ) < 10 ^ digits := by positivity
  have h := abs_sub_round (value * 10 ^ digits)
  have hrw : roundTo digits value - value
      = -((value * 10 ^ digits - (round (value * 10 ^ digits) : ℤ)) / 10 ^ digits) := by
    rw [roundTo]
    field_simp
    ring
  rw [hrw, abs_neg, abs_div, abs_of_pos h10, div_le_div_iff₀ h10 (by positivity)]
  calc |value * 10 ^ digits - (round (value * 10 ^ digits) : ℤ)| * (2 * 10 ^ digits)
      ≤ (1 / 2) * (2 * 10 ^ digits) := by
        exact mul_le_mul_of_nonneg_right h (by positivity)
    _ = 1 * 10 ^ digits := by ring

/-! ### Lemmas about position insertion -/

theorem mergeInto_no_match (base : String) (pside : Side) (size pp lev mg : ℚ)
    (l : List Position) (h : ∀ p ∈ l, ¬(p.symbol = base ∧ p.side = pside)) :
    mergeInto base pside size pp lev mg l
      = l ++ [{ symbol := base, side := pside, entryPrice := roundPrice pp,
                quantity := size, leverage := lev, margin := mg, liquidated := false }] := by
  induction l with
  | nil => rfl
  | cons p rest ih =>
    rw [mergeInto, if_neg (h p (List.mem_cons_self p rest)),
      ih fun q hq => h q (List.mem_cons_of_mem p hq)]
    rfl

theorem mergeInto_first_match (base : String) (pside : Side) (size pp lev mg : ℚ)
    (l1 l2 : List Position) (p : Position)
    (h1 : ∀ q ∈ l1, ¬(q.symbol = base ∧ q.side = pside))
    (hp : p.symbol = base ∧ p.side = pside) :
    mergeInto base pside size pp lev mg (l1 ++ p :: l2)
      = l1 ++ { p with
          entryPrice := roundPrice ((p.entryPrice * p.quantity + pp * size) / (p.quantity + size)),
          quantity := p.quantity + size,
          leverage := max p.leverage lev,
          margin := p.margin + mg } :: l2 := by
  induction l1 with
  | nil => rw [List.nil_append, mergeInto, if_pos hp, List.nil_append]
  | cons q rest ih =>
    rw [List.cons_append, mergeInto, if_neg (h1 q (List.mem_cons_self q rest)),
      ih fun r hr => h1 r (List.mem_cons_of_mem q hr), List.cons_append]

/-! ### Lemmas about mark-to-market -/

theorem markFilter (prices : String → ℚ) (l : List Position) :
    (l.map (markPosition prices)).filter survivorB
      = l.filter fun q => !crossedB prices q && survivorB q := by
  induction l with
  | nil => rfl
  | cons p rest ih =>
    by_cases hc : crossedB prices p
    · have hmark : markPosition prices p
          = { p with margin := 0, quantity := 0, liquidated := true } := by
        rw [markPosition, if_pos hc]
      simp only [List.map_cons, List.filter_cons, hmark, hc, survivorB]
      simp only [Bool.not_true, Bool.false_and, if_false]
      simpa using ih
    · have hmark : markPosition prices p = p := by
        rw [markPosition, if_neg hc]
      have hcf : crossedB prices p = false := Bool.eq_false_iff.mpr hc
      simp only [List.map_cons, List.filter_cons, hmark, hcf, Bool.not_false, Bool.true_and, ih]

theorem markToMarket_positions (s : Session) :
    (markToMarket s).positions
      = s.positions.filter fun q => !crossedB s.prices q && survivorB q :=
  markFilter s.prices s.positions

theorem markToMarket_holdings (s : Session) : (markToMarket s).holdings = s.holdings := rfl

theorem markToMarket_prices (s : Session) : (markToMarket s).prices = s.prices := rfl

/-! ### Claim C10 — faucet frame effect -/

/-- C10: for every session whose USD holding is strictly positive,
`claim_faucet` leaves the session entirely unchanged (in particular the
`faucetClaimed` flag keeps its value, so a still-unclaimed grant stays
claimable), and the one-shot flag is consumed exactly on the invocation
where the 10-unit grant is credited, i.e. when the USD holding is ≤ 0 and
the flag is still false. -/
theorem claimFaucet_frame (s : Session) (h : 0 < s.holdings "USD") :
    claimFaucet s = s ∧
    ∀ s' : Session, s'.faucetClaimed = false → s'.holdings "USD" ≤ 0 →
      (claimFaucet s').holdings "USD" = 10 ∧ (claimFaucet s').faucetClaimed = true := by
  constructor
  · rw [claimFaucet]
    by_cases hf : s.faucetClaimed
    · rw [if_pos hf]
    · rw [if_neg hf, if_neg (not_le.mpr h)]
  · intro s' hflag husd
    rw [claimFaucet, if_neg (by simp [hflag]), if_pos husd]
    exact ⟨Function.update_same "USD" 10 s'.holdings, rfl⟩

/-- Concrete session for the C10 witness: a fresh Admin session
(USD holding 10000). -/
def sessC10pos : Session := createSession "Admin" initialSeedPrices

/-- Concrete session for the C10 witness with an emptied-out wallet. -/
def sessC10zero : Session := { sessC10pos with holdings := fun _ => 0 }

/-- Witness for C10 at a fresh Admin session and at its emptied variant. -/
theorem claimFaucet_frame_witness :
    0 < sessC10pos.holdings "USD" ∧ claimFaucet sessC10pos = sessC10pos ∧
    (claimFaucet sessC10zero).holdings "USD" = 10 ∧
    (claimFaucet sessC10zero).faucetClaimed = true := by
  have h : 0 < sessC10pos.holdings "USD" := by
    norm_num [sessC10pos, createSession, startingBalance]
  have h0 : sessC10zero.holdings "USD" ≤ 0 := le_refl 0
  exact ⟨h, (claimFaucet_frame sessC10pos h).1,
    ((claimFaucet_frame sessC10pos h).2 sessC10zero rfl h0).1,
    ((claimFaucet_frame sessC10pos h).2 sessC10zero rfl h0).2⟩

/-! ### Claim C1 — liquidation -/

/-- C1: the liquidation price of a position is
`entryPrice * (1 - 1/leverage)` for a long and
`entryPrice * (1 + 1/leverage)` for a short, and when the current price
crosses it (≤ for a long, ≥ for a short — here: the position is the one
crossed position of the session), the `markToMarket` pass decrements the
session's realized PnL by exactly the position's margin, zeroes its
margin and quantity, flags it liquidated, and removes it from the
session's position list at the end of the pass. -/
theorem liquidation_exact (s : Session) (pos : Position)
    (hcross : s.positions.filter (crossedB s.prices) = [pos]) :
    (pos.side = Side.long →
      liquidationPrice pos = pos.entryPrice * (1 - 1 / pos.leverage)) ∧
    (pos.side = Side.short →
      liquidationPrice pos = pos.entryPrice * (1 + 1 / pos.leverage)) ∧
    crossedB s.prices pos = true ∧
    (markToMarket s).realizedPnl = s.realizedPnl - pos.margin ∧
    markPosition s.prices pos = { pos with margin := 0, quantity := 0, liquidated := true } ∧
    pos ∉ (markToMarket s).positions := by
  have hmemf : pos ∈ s.positions.filter (crossedB s.prices) := by
    rw [hcross]; exact List.mem_singleton.mpr rfl
  have hc : crossedB s.prices pos = true := List.of_mem_filter hmemf
  refine ⟨?_, ?_, hc, ?_, ?_, ?_⟩
  · intro hside; rw [liquidationPrice, if_pos hside]
  · intro hside
    rw [liquidationPrice, if_neg (by rw [hside]; exact fun hlong => Side.noConfusion hlong)]
  · show s.realizedPnl - ((s.positions.filter (crossedB s.prices)).map Position.margin).sum
        = s.realizedPnl - pos.margin
    rw [hcross]
    simp
  · rw [markPosition, if_pos hc]
  · rw [markToMarket_positions]
    intro hmem
    have hall := List.of_mem_filter hmem
    rw [Bool.and_eq_true, Bool.not_eq_true'] at hall
    rw [hc] at hall
    exact absurd hall.1 (by simp)

/-- Concrete crossed position for the C1 witness: long BTC, entry 100,
quantity 1, leverage 2, margin 50 — liquidation price 50. -/
def posC1 : Position :=
  { symbol := "BTC", side := Side.long, entryPrice := 100, quantity := 1,
    leverage := 2, margin := 50, liquidated := false }

/-- Concrete session for the C1 witness: BTC marked at 40, below the
liquidation price 50 of `posC1`. -/
def sessC1 : Session :=
  { holdings := fun _ => 0, positions := [posC1], realizedPnl := 7,
    unrealizedPnl := 0, prices := fun sym => if sym = "BTC" then 40 else 0,
    faucetClaimed := false }

/-- Witness for C1: on `sessC1` the mark-to-market pass drops realized PnL
from 7 to `7 - 50` and removes the crossed position. -/
theorem liquidation_exact_witness :
    sessC1.positions.filter (crossedB sessC1.prices) = [posC1] ∧
    (markToMarket sessC1).realizedPnl = sessC1.realizedPnl - posC1.margin ∧
    posC1 ∉ (markToMarket sessC1).positions := by
  have hcross : sessC1.positions.filter (crossedB sessC1.prices) = [posC1] := by
    have hc : crossedB sessC1.prices posC1 = true := by
      rw [crossedB, effectivePrice, liquidationPrice]
      norm_num [posC1, sessC1]
    show List.filter (crossedB sessC1.prices) [posC1] = [posC1]
    rw [List.filter_cons, if_pos hc]
    rfl
  exact ⟨hcross, (liquidation_exact sessC1 posC1 hcross).2.2.2.1,
    (liquidation_exact sessC1 posC1 hcross).2.2.2.2.2⟩

/-! ### Claim C5 — mark-to-market idempotence -/

theorem Session.ext' (a b : Session) (h1 : a.holdings = b.holdings)
    (h2 : a.positions = b.positions) (h3 : a.realizedPnl = b.realizedPnl)
    (h4 : a.unrealizedPnl = b.unrealizedPnl) (h5 : a.prices = b.prices)
    (h6 : a.faucetClaimed = b.faucetClaimed) : a = b := by
  cases a; cases b
  simp_all

/-- Call a position clean (for a price map) when it is not crossed and
passes the survivor filter; `markToMarket` only recomputes unrealized PnL
on a session whose positions are all clean. -/
theorem markToMarket_of_clean (s : Session)
    (h : ∀ p ∈ s.positions, crossedB s.prices p = false ∧ survivorB p = true) :
    markToMarket s = { s with
      unrealizedPnl :=
        roundBalance ((s.positions.map fun p => positionPnl s.prices p * p.leverage).sum) } := by
  apply Session.ext'
  · rfl
  · rw [markToMarket_positions]
    exact List.filter_eq_self.mpr fun p hp => by rw [(h p hp).1, (h p hp).2]; rfl
  · show s.realizedPnl - ((s.positions.filter (crossedB s.prices)).map Position.margin).sum
        = s.realizedPnl
    rw [List.filter_eq_nil_iff.mpr fun p hp => by rw [(h p hp).1]; exact fun hpf => by simp at hpf]
    simp
  · rfl
  · rfl
  · rfl

/-- C5 (amended): the second `markToMarket` run with unchanged prices
never removes a position and never changes realized PnL; the full session
state is reproduced whenever the first run liquidated and removed nothing
— but not in general, since a first run that removes a position also
removes that position's contribution from the unrealized-PnL sum of the
second run (see the counterexample). -/
theorem markToMarket_second_run (s : Session) :
    ((markToMarket (markToMarket s)).positions = (markToMarket s).positions ∧
     (markToMarket (markToMarket s)).realizedPnl = (markToMarket s).realizedPnl) ∧
    ((∀ p ∈ s.positions, crossedB s.prices p = false ∧ survivorB p = true) →
      markToMarket (markToMarket s) = markToMarket s) := by
  have hclean1 : ∀ p ∈ (markToMarket s).positions,
      crossedB (markToMarket s).prices p = false ∧ survivorB p = true := by
    intro p hp
    rw [markToMarket_positions] at hp
    have hcond := List.of_mem_filter hp
    rw [Bool.and_eq_true, Bool.not_eq_true'] at hcond
    exact ⟨hcond.1, hcond.2⟩
  constructor
  · constructor
    · rw [markToMarket_of_clean (markToMarket s) hclean1]
    · rw [markToMarket_of_clean (markToMarket s) hclean1]
  · intro hclean
    rw [markToMarket_of_clean s hclean]
    have hclean' : ∀ p ∈ ({ s with
        unrealizedPnl :=
          roundBalance ((s.positions.map fun p => positionPnl s.prices p * p.leverage).sum) } :
          Session).positions,
        crossedB s.prices p = false ∧ survivorB p = true := hclean
    rw [markToMarket_of_clean _ hclean']

/-- Concrete position for the C5 counterexample: long BTC, entry 100,
quantity 1, leverage 2, margin 50 — liquidation price 50. -/
def posC5 : Position :=
  { symbol := "BTC", side := Side.long, entryPrice := 100, quantity := 1,
    leverage := 2, margin := 50, liquidated := false }

/-- Concrete session for the C5 counterexample: BTC marked at 40, so the
position is liquidated on the first pass. -/
def sessC5 : Session :=
  { holdings := fun _ => 0, positions := [posC5], realizedPnl := 0,
    unrealizedPnl := 0, prices := fun sym => if sym = "BTC" then 40 else 0,
    faucetClaimed := false }

/-- Counterexample to C5 as stated: on `sessC5` the first `markToMarket`
run sets unrealized PnL to `-120` and removes the liquidated position;
the second run, with unchanged prices, recomputes unrealized PnL to `0`,
so running `markToMarket` twice does not reproduce the state after one
run. -/
theorem markToMarket_not_idempotent :
    (markToMarket (markToMarket sessC5)).unrealizedPnl ≠ (markToMarket sessC5).unrealizedPnl := by
  have hc : crossedB sessC5.prices posC5 = true := by
    rw [crossedB, effectivePrice, liquidationPrice]
    norm_num [posC5, sessC5]
  have h1pos : (markToMarket sessC5).positions = [] := by
    rw [markToMarket_positions]
    show List.filter _ [posC5] = []
    rw [List.filter_cons, if_neg (by rw [hc]; simp)]
    rfl
  have hu1 : (markToMarket sessC5).unrealizedPnl = -120 := by
    show roundBalance ((List.map (fun p => positionPnl sessC5.prices p * p.leverage) [posC5]).sum)
        = -120
    rw [List.map_cons, List.map_nil, List.sum_cons, List.sum_nil, positionPnl, effectivePrice]
    norm_num [posC5, sessC5, roundBalance, roundTo, round_eq]
  have hu2 : (markToMarket (markToMarket sessC5)).unrealizedPnl = 0 := by
    show roundBalance
        ((List.map (fun p => positionPnl (markToMarket sessC5).prices p * p.leverage)
          (markToMarket sessC5).positions).sum) = 0
    rw [h1pos, List.map_nil, List.sum_nil]
    norm_num [roundBalance, roundTo, round_eq]
  rw [hu1, hu2]
  norm_num

/-- Concrete position for the C5 witness: long BTC, entry 100, quantity 1,
leverage 2, margin 50, marked at 80 — safely above the liquidation
price 50. -/
def posC5clean : Position :=
  { symbol := "BTC", side := Side.long, entryPrice := 100, quantity := 1,
    leverage := 2, margin := 50, liquidated := false }

/-- Concrete session for the C5 witness. -/
def sessC5clean : Session :=
  { holdings := fun _ => 0, positions := [posC5clean], realizedPnl := 0,
    unrealizedPnl := 0, prices := fun sym => if sym = "BTC" then 80 else 0,
    faucetClaimed := false }

/-- Witness for the amended C5 on a session whose only position is clean:
the second run reproduces the first run's state exactly. -/
theorem markToMarket_second_run_witness :
    (∀ p ∈ sessC5clean.positions,
      crossedB sessC5clean.prices p = false ∧ survivorB p = true) ∧
    markToMarket (markToMarket sessC5clean) = markToMarket sessC5clean := by
  have hclean : ∀ p ∈ sessC5clean.positions,
      crossedB sessC5clean.prices p = false ∧ survivorB p = true := by
    intro p hp
    have hp' : p = posC5clean := List.mem_singleton.mp hp
    subst hp'
    constructor
    · rw [crossedB, effectivePrice, liquidationPrice]
      norm_num [posC5clean, sessC5clean]
    · rw [survivorB]
      norm_num [posC5clean]
  exact ⟨hclean, (markToMarket_second_run sessC5clean).2 hclean⟩

/-! ### Claim C2 — failed orders change no state -/

/-- C2: whenever order execution returns `PairNotSupported`,
`InsufficientBalance` or `InsufficientMargin`, the session returned by
`handleOrder` is exactly the input session — holdings (in particular no
surviving USD debit from the auto-conversion step), positions and both
PnL totals included. The only hypothesis is that the quote holding is
not negative, which every reachable session satisfies (claim C6). -/
theorem order_error_no_state_change (s : Session) (o : Order)
    (hq : 0 ≤ s.holdings o.quote)
    (herr : (handleOrder s o).1 = OrderResult.pairNotSupported ∨
            (handleOrder s o).1 = OrderResult.insufficientBalance ∨
            (handleOrder s o).1 = OrderResult.insufficientMargin) :
    (handleOrder s o).2 = s := by
  by_cases hp : s.prices o.base = 0 ∨ s.prices o.quote = 0
  · simp only [handleOrder, if_pos hp]
  · have hs1 : ¬convertB s o = true →
        ({ s with holdings := convertedHoldings s o } : Session) = s := by
      intro hcv
      have hch : convertedHoldings s o = s.holdings := by rw [convertedHoldings, if_neg hcv]
      rw [hch]
    by_cases hc : convertB s o = true
    · have havail : availableQuoteOf s o = costInQuoteOf s o := by
        rw [availableQuoteOf, if_pos hc, missingOf]
        ring
      have hlt : s.holdings o.quote < costInQuoteOf s o := by
        rw [convertB] at hc
        simp only [Bool.and_eq_true, decide_eq_true_eq] at hc
        exact hc.1.1.1
      have hcost : 0 < costInQuoteOf s o := lt_of_le_of_lt hq hlt
      have h1 : ¬(availableQuoteOf s o < costInQuoteOf s o ∧ o.leverage = 1) := by
        rw [havail]
        rintro ⟨hlt', -⟩
        exact lt_irrefl _ hlt'
      have h2 : ¬(1 < o.leverage ∧ availableQuoteOf s o < marginOf s o) := by
        rintro ⟨hlev, hlt'⟩
        rw [havail, marginOf, if_pos hlev] at hlt'
        have hdiv : costInQuoteOf s o / o.leverage < costInQuoteOf s o :=
          div_lt_self hcost hlev
        linarith
      simp only [handleOrder, if_neg hp, if_neg h1, if_neg h2] at herr
      rcases herr with h | h | h <;> exact OrderResult.noConfusion h
    · by_cases h1 : availableQuoteOf s o < costInQuoteOf s o ∧ o.leverage = 1
      · simp only [handleOrder, if_neg hp, if_pos h1]
        exact hs1 hc
      · by_cases h2 : 1 < o.leverage ∧ availableQuoteOf s o < marginOf s o
        · simp only [handleOrder, if_neg hp, if_neg h1, if_pos h2]
          exact hs1 hc
        · simp only [handleOrder, if_neg hp, if_neg h1, if_neg h2] at herr
          rcases herr with h | h | h <;> exact OrderResult.noConfusion h

/-- Prices for the C2 witness: BTC at 50000 USD. -/
def pricesC2 : String → ℚ := fun sym =>
  if sym = "BTC" then 50000 else if sym = "USD" then 1 else 0

/-- Session for the C2 witness: a fresh EzMode session (1000 USD). -/
def sessC2 : Session := createSession "EzMode" pricesC2

/-- Order for the C2 witness: long 1 BTC at leverage 10, required margin
5000 against a 1000 USD balance. -/
def orderC2 : Order :=
  { base := "BTC", quote := "USD", side := "buy", size := 1, leverage := 10 }

/-- Witness for C2: the spec's own scenario (EzMode, 1000 USD, long 1 BTC
at leverage 10 and price 50000) is rejected with `InsufficientMargin` and
the session is unchanged. -/
theorem order_error_no_state_change_witness :
    0 ≤ sessC2.holdings orderC2.quote ∧
    (handleOrder sessC2 orderC2).1 = OrderResult.insufficientMargin ∧
    (handleOrder sessC2 orderC2).2 = sessC2 := by
  have hUSD : sessC2.holdings "USD" = 1000 := by
    simp [sessC2, createSession, startingBalance]
  have hq : 0 ≤ sessC2.holdings orderC2.quote := by
    show 0 ≤ sessC2.holdings "USD"
    rw [hUSD]
    norm_num
  have hcost : costInQuoteOf sessC2 orderC2 = 50000 := by
    rw [costInQuoteOf, pairPriceOf]
    show (1 : ℚ) * (sessC2.prices "BTC" / sessC2.prices "USD") = 50000
    have hb : sessC2.prices "BTC" = 50000 := by simp [sessC2, createSession, pricesC2]
    have hu : sessC2.prices "USD" = 1 := by simp [sessC2, createSession, pricesC2]
    rw [hb, hu]
    norm_num
  have hcv : convertB sessC2 orderC2 = false := by
    rw [convertB]
    have hdq : decide (orderC2.quote ≠ "USD") = false := by decide
    rw [hdq]
    simp
  have hav : availableQuoteOf sessC2 orderC2 = 1000 := by
    rw [availableQuoteOf, hcv]
    simpa using hUSD
  have hmarg : marginOf sessC2 orderC2 = 5000 := by
    rw [marginOf, if_pos (show (1 : ℚ) < orderC2.leverage by norm_num [orderC2]), hcost]
    norm_num [orderC2]
  have hp : ¬(sessC2.prices orderC2.base = 0 ∨ sessC2.prices orderC2.quote = 0) := by
    simp [sessC2, orderC2, createSession, pricesC2]
  have h1 : ¬(availableQuoteOf sessC2 orderC2 < costInQuoteOf sessC2 orderC2 ∧
      orderC2.leverage = 1) := by
    rintro ⟨-, hlev⟩
    norm_num [orderC2] at hlev
  have h2 : 1 < orderC2.leverage ∧
      availableQuoteOf sessC2 orderC2 < marginOf sessC2 orderC2 := by
    refine ⟨by norm_num [orderC2], ?_⟩
    rw [hav, hmarg]
    norm_num
  have hres : (handleOrder sessC2 orderC2).1 = OrderResult.insufficientMargin := by
    simp only [handleOrder, if_neg hp, if_neg h1, if_pos h2]
  exact ⟨hq, hres,
    order_error_no_state_change sessC2 orderC2 hq (Or.inr (Or.inr hres))⟩

/-! ### Claim C3 — spot order with covering balance -/

/-- C3: for a leverage-1 order whose quote holding already covers the
cost `size * pairPrice`, execution succeeds with no auto-conversion, the
quote holding becomes the previous holding minus the cost, rounded to 2
fractional digits, every other holding is untouched, and — when no open
position with the same symbol and side exists — a new position is
appended with quantity `size`, entry price `pairPrice` rounded to 4
fractional digits, leverage 1 and margin equal to the full cost. -/
theorem spot_order_exact (s : Session) (o : Order)
    (hbase : s.prices o.base ≠ 0) (hquote : s.prices o.quote ≠ 0)
    (hlev : o.leverage = 1)
    (hcover : costInQuoteOf s o ≤ s.holdings o.quote) :
    (handleOrder s o).1 = OrderResult.ok 0 (roundPrice (pairPriceOf s o)) ∧
    (handleOrder s o).2.holdings o.quote
      = roundBalance (s.holdings o.quote - o.size * pairPriceOf s o) ∧
    (∀ sym, sym ≠ o.quote → (handleOrder s o).2.holdings sym = s.holdings sym) ∧
    ((∀ p ∈ s.positions, ¬(p.symbol = o.base ∧ p.side = positionSide o.side)) →
      (handleOrder s o).2.positions
        = s.positions ++
          [{ symbol := o.base, side := positionSide o.side,
             entryPrice := roundPrice (pairPriceOf s o), quantity := o.size,
             leverage := 1, margin := o.size * pairPriceOf s o, liquidated := false }]) := by
  have hp : ¬(s.prices o.base = 0 ∨ s.prices o.quote = 0) := by
    rintro (h | h)
    exacts [hbase h, hquote h]
  have hcv : convertB s o = false := by
    rw [convertB, decide_eq_false (not_lt.mpr hcover)]
    simp
  have hch : convertedHoldings s o = s.holdings := by
    rw [convertedHoldings, hcv]
    simp
  have hav : availableQuoteOf s o = s.holdings o.quote := by
    rw [availableQuoteOf, hcv]
    simp
  have hnlev : ¬(1 : ℚ) < o.leverage := by
    rw [hlev]
    exact lt_irrefl 1
  have h1 : ¬(availableQuoteOf s o < costInQuoteOf s o ∧ o.leverage = 1) := by
    rintro ⟨hlt, -⟩
    rw [hav] at hlt
    exact not_lt.mpr hcover hlt
  have h2 : ¬(1 < o.leverage ∧ availableQuoteOf s o < marginOf s o) := by
    rintro ⟨hl, -⟩
    exact hnlev hl
  have hm : marginOf s o = costInQuoteOf s o := by
    rw [marginOf, if_neg hnlev]
  have hguard : marginOf s o ≤ availableQuoteOf s o := by
    rw [hm, hav]
    exact hcover
  have hmain : handleOrder s o
      = (OrderResult.ok 0 (roundPrice (pairPriceOf s o)),
         { s with
           holdings := Function.update s.holdings o.quote
             (roundBalance (s.holdings o.quote - costInQuoteOf s o)),
           positions :=
             mergeInto o.base (positionSide o.side) o.size (pairPriceOf s o) o.leverage
               (costInQuoteOf s o) s.positions }) := by
    simp only [handleOrder]
    rw [if_neg hp, if_neg h1]
    rw [if_neg h2]
    rw [if_neg hnlev, if_pos hguard, hch, hav, hcv, hm]
    simp
  refine ⟨by rw [hmain], ?_, ?_, ?_⟩
  · rw [hmain]
    show Function.update s.holdings o.quote
        (roundBalance (s.holdings o.quote - costInQuoteOf s o)) o.quote = _
    rw [Function.update_same, costInQuoteOf]
  · intro sym hsym
    rw [hmain]
    exact Function.update_noteq hsym _ s.holdings
  · intro hnone
    rw [hmain]
    show mergeInto o.base (positionSide o.side) o.size (pairPriceOf s o) o.leverage
        (costInQuoteOf s o) s.positions = _
    rw [mergeInto_no_match _ _ _ _ _ _ s.positions hnone, hlev, costInQuoteOf]

/-- Prices for the C3 witness: BTC at 67000 USD. -/
def pricesC3 : String → ℚ := fun sym =>
  if sym = "BTC" then 67000 else if sym = "USD" then 1 else 0

/-- Session for the C3 witness: a fresh Admin session (10000 USD). -/
def sessC3 : Session := createSession "Admin" pricesC3

/-- Order for the C3 witness: buy 0.01 BTC at leverage 1. -/
def orderC3 : Order :=
  { base := "BTC", quote := "USD", side := "buy", size := 1 / 100, leverage := 1 }

/-- Witness for C3: the spec's Admin scenario — buy 0.01 BTC at 67000,
leverage 1 — leaves `holdings.USD = 9330` and a single long position
`{BTC, qty 0.01, entry 67000, leverage 1, margin 670}`. -/
theorem spot_order_exact_witness :
    costInQuoteOf sessC3 orderC3 ≤ sessC3.holdings orderC3.quote ∧
    (handleOrder sessC3 orderC3).1 = OrderResult.ok 0 67000 ∧
    (handleOrder sessC3 orderC3).2.holdings "USD" = 9330 ∧
    (handleOrder sessC3 orderC3).2.positions
      = [{ symbol := "BTC", side := Side.long, entryPrice := 67000, quantity := 1 / 100,
           leverage := 1, margin := 670, liquidated := false }] := by
  have hbase : sessC3.prices orderC3.base ≠ 0 := by
    simp [sessC3, createSession, pricesC3, orderC3]
  have hquote : sessC3.prices orderC3.quote ≠ 0 := by
    simp [sessC3, createSession, pricesC3, orderC3]
  have hlev : orderC3.leverage = 1 := rfl
  have hpair : pairPriceOf sessC3 orderC3 = 67000 := by
    rw [pairPriceOf]
    have hb : sessC3.prices orderC3.base = 67000 := by
      simp [sessC3, createSession, pricesC3, orderC3]
    have hu : sessC3.prices orderC3.quote = 1 := by
      simp [sessC3, createSession, pricesC3, orderC3]
    rw [hb, hu]
    norm_num
  have hcost : costInQuoteOf sessC3 orderC3 = 670 := by
    rw [costInQuoteOf, hpair]
    norm_num [orderC3]
  have hUSD : sessC3.holdings "USD" = 10000 := by
    simp [sessC3, createSession, startingBalance]
  have hcover : costInQuoteOf sessC3 orderC3 ≤ sessC3.holdings orderC3.quote := by
    show costInQuoteOf sessC3 orderC3 ≤ sessC3.holdings "USD"
    rw [hcost, hUSD]
    norm_num
  have main := spot_order_exact sessC3 orderC3 hbase hquote hlev hcover
  have hround : roundPrice (pairPriceOf sessC3 orderC3) = 67000 := by
    rw [hpair]
    norm_num [roundPrice, roundTo, round_eq]
  have hmarg : orderC3.size * pairPriceOf sessC3 orderC3 = 670 := by
    rw [hpair]
    norm_num [orderC3]
  refine ⟨hcover, ?_, ?_, ?_⟩
  · rw [main.1, hround]
  · have h := main.2.1
    rw [hmarg] at h
    have h9330 : (handleOrder sessC3 orderC3).2.holdings orderC3.quote = 9330 := by
      rw [h]
      show roundBalance (sessC3.holdings "USD" - 670) = 9330
      rw [hUSD]
      norm_num [roundBalance, roundTo, round_eq]
    exact h9330
  · have hnone : ∀ p ∈ sessC3.positions,
        ¬(p.symbol = orderC3.base ∧ p.side = positionSide orderC3.side) := by
      intro p hp
      simp [sessC3, createSession] at hp
    have h := main.2.2.2 hnone
    rw [h, hround, hmarg]
    rfl

/-! ### Claim C4 — same-symbol same-side merge -/

/-- C4: when a successfully executed order finds an open position with
the same symbol and side (here: the first such position, matching the
source's `find`), the order merges into it — quantity becomes
`old + size`, the entry price becomes the quantity-weighted average of
the old entry and the fill price within a rounding tolerance of `1e-4`,
leverage becomes the max of old and new, margin accumulates by the
order's margin — and no second position for that (symbol, side) is
created: the position count is unchanged. -/
theorem merge_position_exact (s : Session) (o : Order) (l1 l2 : List Position) (p : Position)
    (hpos : s.positions = l1 ++ p :: l2)
    (hfirst : ∀ q ∈ l1, ¬(q.symbol = o.base ∧ q.side = positionSide o.side))
    (hmatch : p.symbol = o.base ∧ p.side = positionSide o.side)
    (hok : ∃ c pp, (handleOrder s o).1 = OrderResult.ok c pp) :
    (handleOrder s o).2.positions
      = l1 ++ { p with
          entryPrice := roundPrice
            ((p.entryPrice * p.quantity + pairPriceOf s o * o.size) / (p.quantity + o.size)),
          quantity := p.quantity + o.size,
          leverage := max p.leverage o.leverage,
          margin := p.margin + marginOf s o } :: l2 ∧
    (handleOrder s o).2.positions.length = s.positions.length ∧
    |roundPrice ((p.entryPrice * p.quantity + pairPriceOf s o * o.size) / (p.quantity + o.size))
        - (p.entryPrice * p.quantity + pairPriceOf s o * o.size) / (p.quantity + o.size)|
      ≤ 1 / 10 ^ 4 := by
  obtain ⟨c, pp, hok⟩ := hok
  by_cases hp : s.prices o.base = 0 ∨ s.prices o.quote = 0
  · simp only [handleOrder, if_pos hp] at hok
    exact absurd hok (by simp)
  · by_cases h1 : availableQuoteOf s o < costInQuoteOf s o ∧ o.leverage = 1
    · simp only [handleOrder, if_neg hp, if_pos h1] at hok
      exact absurd hok (by simp)
    · by_cases h2 : 1 < o.leverage ∧ availableQuoteOf s o < marginOf s o
      · simp only [handleOrder, if_neg hp, if_neg h1, if_pos h2] at hok
        exact absurd hok (by simp)
      · have hmain : (handleOrder s o).2.positions
            = mergeInto o.base (positionSide o.side) o.size (pairPriceOf s o) o.leverage
                (marginOf s o) s.positions := by
          simp only [handleOrder, if_neg hp, if_neg h1, if_neg h2]
        have hmerged := mergeInto_first_match o.base (positionSide o.side) o.size
          (pairPriceOf s o) o.leverage (marginOf s o) l1 l2 p hfirst hmatch
        refine ⟨?_, ?_, ?_⟩
        · rw [hmain, hpos, hmerged]
        · rw [hmain, hpos, hmerged]
          simp
        · calc |roundPrice ((p.entryPrice * p.quantity + pairPriceOf s o * o.size)
                  / (p.quantity + o.size))
                - (p.entryPrice * p.quantity + pairPriceOf s o * o.size)
                  / (p.quantity + o.size)|
              ≤ 1 / (2 * 10 ^ 4) := abs_roundTo_sub 4 _
            _ ≤ 1 / 10 ^ 4 := by norm_num

/-- Position already open for the C4 witness: long 0.01 BTC at 67000,
margin 670 (the state after the C3 scenario). -/
def posC4 : Position :=
  { symbol := "BTC", side := Side.long, entryPrice := 67000, quantity := 1 / 100,
    leverage := 1, margin := 670, liquidated := false }

/-- Prices for the C4 witness: BTC at 67000 USD. -/
def pricesC4 : String → ℚ := fun sym =>
  if sym = "BTC" then 67000 else if sym = "USD" then 1 else 0

/-- Session for the C4 witness: 9330 USD and the open position `posC4`. -/
def sessC4 : Session :=
  { holdings := fun sym => if sym = "USD" then 9330 else 0,
    positions := [posC4], realizedPnl := 0, unrealizedPnl := 0,
    prices := pricesC4, faucetClaimed := false }

/-- Order for the C4 witness: buy another 0.01 BTC at leverage 1. -/
def orderC4 : Order :=
  { base := "BTC", quote := "USD", side := "buy", size := 1 / 100, leverage := 1 }

/-- Witness for C4: the spec's merge scenario — the second 0.01 BTC buy
merges into the existing position, which becomes qty 0.02, entry 67000,
margin 1340, and the position count stays 1. -/
theorem merge_position_exact_witness :
    (sessC4.positions = [] ++ posC4 :: []) ∧
    (posC4.symbol = orderC4.base ∧ posC4.side = positionSide orderC4.side) ∧
    (∃ c pp, (handleOrder sessC4 orderC4).1 = OrderResult.ok c pp) ∧
    (handleOrder sessC4 orderC4).2.positions.length = sessC4.positions.length := by
  have hpair : pairPriceOf sessC4 orderC4 = 67000 := by
    rw [pairPriceOf]
    have hb : sessC4.prices orderC4.base = 67000 := by simp [sessC4, pricesC4, orderC4]
    have hu : sessC4.prices orderC4.quote = 1 := by simp [sessC4, pricesC4, orderC4]
    rw [hb, hu]
    norm_num
  have hcost : costInQuoteOf sessC4 orderC4 = 670 := by
    rw [costInQuoteOf, hpair]
    norm_num [orderC4]
  have hq : sessC4.holdings orderC4.quote = 9330 := by simp [sessC4, orderC4]
  have hp : ¬(sessC4.prices orderC4.base = 0 ∨ sessC4.prices orderC4.quote = 0) := by
    simp [sessC4, pricesC4, orderC4]
  have hcv : convertB sessC4 orderC4 = false := by
    rw [convertB, decide_eq_false (not_lt.mpr (by rw [hcost, hq]; norm_num))]
    simp
  have hav : availableQuoteOf sessC4 orderC4 = 9330 := by
    rw [availableQuoteOf, hcv]
    simpa using hq
  have h1 : ¬(availableQuoteOf sessC4 orderC4 < costInQuoteOf sessC4 orderC4 ∧
      orderC4.leverage = 1) := by
    rintro ⟨hlt, -⟩
    rw [hav, hcost] at hlt
    norm_num at hlt
  have h2 : ¬(1 < orderC4.leverage ∧
      availableQuoteOf sessC4 orderC4 < marginOf sessC4 orderC4) := by
    rintro ⟨hlt, -⟩
    norm_num [orderC4] at hlt
  have hok : (handleOrder sessC4 orderC4).1
      = OrderResult.ok 0 (roundPrice (pairPriceOf sessC4 orderC4)) := by
    simp only [handleOrder, if_neg hp, if_neg h1, if_neg h2, hcv]
    simp
  have hmatch : posC4.symbol = orderC4.base ∧ posC4.side = positionSide orderC4.side := by
    exact ⟨rfl, by decide⟩
  have hfirst : ∀ q ∈ ([] : List Position),
      ¬(q.symbol = orderC4.base ∧ q.side = positionSide orderC4.side) := by
    intro q hq'
    exact absurd hq' (List.not_mem_nil q)
  exact ⟨rfl, hmatch, ⟨0, roundPrice (pairPriceOf sessC4 orderC4), hok⟩,
    (merge_position_exact sessC4 orderC4 [] [] posC4 rfl hfirst hmatch
      ⟨0, roundPrice (pairPriceOf sessC4 orderC4), hok⟩).2.1⟩

/-! ### Claim C6 — holdings never negative -/

theorem convertedHoldings_nonneg (s : Session) (o : Order)
    (h : ∀ sym, 0 ≤ s.holdings sym) : ∀ sym, 0 ≤ convertedHoldings s o sym := by
  intro sym
  rw [convertedHoldings]
  by_cases hc : convertB s o = true
  · rw [if_pos hc, Function.update_apply]
    by_cases hu : sym = "USD"
    · rw [if_pos hu]
      have hneed : neededUsdOf s o ≤ s.holdings "USD" := by
        rw [convertB] at hc
        simp only [Bool.and_eq_true, decide_eq_true_eq] at hc
        exact hc.2
      exact roundTo_nonneg 2 _ (by linarith)
    · rw [if_neg hu]
      exact h sym
  · rw [if_neg hc]
    exact h sym

/-- C6: holdings amounts are never negative — session creation seeds a
non-negative balance, and order execution (auto-conversion debit and
margin/cost deduction included), the faucet claim and mark-to-market each
preserve pointwise non-negativity of the holdings map. -/
theorem holdings_nonneg_invariant :
    (∀ (mode : String) (prices : String → ℚ) (sym : String),
      0 ≤ (createSession mode prices).holdings sym) ∧
    (∀ (s : Session) (o : Order), (∀ sym, 0 ≤ s.holdings sym) →
      ∀ sym, 0 ≤ (handleOrder s o).2.holdings sym) ∧
    (∀ s : Session, (∀ sym, 0 ≤ s.holdings sym) →
      ∀ sym, 0 ≤ (claimFaucet s).holdings sym) ∧
    (∀ s : Session, (∀ sym, 0 ≤ s.holdings sym) →
      ∀ sym, 0 ≤ (markToMarket s).holdings sym) := by
  refine ⟨?_, ?_, ?_, ?_⟩
  · intro mode prices sym
    show (0 : ℚ) ≤ if sym = "USD" then startingBalance mode else 0
    have hsb : (0 : ℚ) ≤ startingBalance mode := by
      rw [startingBalance]
      split_ifs <;> norm_num
    split_ifs
    · exact hsb
    · exact le_refl 0
  · intro s o h sym
    by_cases hp : s.prices o.base = 0 ∨ s.prices o.quote = 0
    · simp only [handleOrder, if_pos hp]
      exact h sym
    · by_cases h1 : availableQuoteOf s o < costInQuoteOf s o ∧ o.leverage = 1
      · simp only [handleOrder, if_neg hp, if_pos h1]
        exact convertedHoldings_nonneg s o h sym
      · by_cases h2 : 1 < o.leverage ∧ availableQuoteOf s o < marginOf s o
        · simp only [handleOrder, if_neg hp, if_neg h1, if_pos h2]
          exact convertedHoldings_nonneg s o h sym
        · simp only [handleOrder, if_neg hp, if_neg h1, if_neg h2]
          by_cases hg : marginOf s o ≤ availableQuoteOf s o
          · rw [if_pos hg, Function.update_apply]
            by_cases hq : sym = o.quote
            · rw [if_pos hq]
              have hded : (if 1 < o.leverage then marginOf s o else costInQuoteOf s o)
                  = marginOf s o := by
                by_cases hl : (1 : ℚ) < o.leverage
                · rw [if_pos hl]
                · rw [if_neg hl, marginOf, if_neg hl]
              rw [hded]
              exact roundTo_nonneg 2 _ (by linarith)
            · rw [if_neg hq]
              exact convertedHoldings_nonneg s o h sym
          · rw [if_neg hg]
            exact convertedHoldings_nonneg s o h sym
  · intro s h sym
    rw [claimFaucet]
    by_cases hf : s.faucetClaimed
    · rw [if_pos hf]
      exact h sym
    · rw [if_neg hf]
      by_cases hz : s.holdings "USD" ≤ 0
      · rw [if_pos hz]
        show (0 : ℚ) ≤ Function.update s.holdings "USD" 10 sym
        rw [Function.update_apply]
        split_ifs
        · norm_num
        · exact h sym
      · rw [if_neg hz]
        exact h sym
  · intro s h sym
    exact h sym

/-- Witness for C6 at concrete states: a fresh Whale session has
non-negative holdings, and a successfully executed leveraged order on it
keeps every holding non-negative. -/
theorem holdings_nonneg_invariant_witness :
    (∀ sym, 0 ≤ (createSession "Whale" pricesC2).holdings sym) ∧
    (∀ sym, 0 ≤ (handleOrder (createSession "Whale" pricesC2)
      { base := "BTC", quote := "USD", side := "buy", size := 1, leverage := 10 }).2.holdings sym) ∧
    (∀ sym, 0 ≤ (claimFaucet (createSession "Whale" pricesC2)).holdings sym) ∧
    (∀ sym, 0 ≤ (markToMarket (createSession "Whale" pricesC2)).holdings sym) := by
  have hseed : ∀ sym, 0 ≤ (createSession "Whale" pricesC2).holdings sym :=
    holdings_nonneg_invariant.1 "Whale" pricesC2
  exact ⟨hseed,
    holdings_nonneg_invariant.2.1 (createSession "Whale" pricesC2) _ hseed,
    holdings_nonneg_invariant.2.2.1 (createSession "Whale" pricesC2) hseed,
    holdings_nonneg_invariant.2.2.2 (createSession "Whale" pricesC2) hseed⟩

/-! ### Claim C7 — provider snapshot refresh -/

theorem lookup_mem_pairs (sym : String) (v : ℚ) (l : List (String × ℚ))
    (h : l.lookup sym = some v) : (sym, v) ∈ l := by
  induction l with
  | nil => simp [List.lookup] at h
  | cons p rest ih =>
    obtain ⟨k, w⟩ := p
    rw [List.lookup] at h
    by_cases hk : (sym == k) = true
    · rw [hk] at h
      simp only [Option.some.injEq] at h
      subst h
      have hsk : sym = k := by simpa using hk
      subst hsk
      exact List.mem_cons_self _ _
    · rw [Bool.eq_false_iff.mpr hk] at h
      exact List.mem_cons_of_mem _ (ih h)

theorem initialSeedPrices_pos : ∀ sym ∈ assets, 0 < initialSeedPrices sym := by
  intro sym hs
  simp only [assets, List.mem_cons, List.not_mem_nil, or_false] at hs
  rcases hs with rfl | rfl | rfl | rfl | rfl | rfl | rfl | rfl | rfl | rfl | rfl | rfl | rfl <;>
    · simp only [initialSeedPrices, String.reduceEq, reduceIte]
      norm_num

/-- Raw Binance response for the C7 counterexample: the BTC ticker parses
to the finite number `0`, every other request fails. -/
def rawC7zero : String → Option ℚ := fun a => if a = "BTC" then some 0 else none

/-- Counterexample to C7 as stated: a Binance refresh in which BTC parses
to `0` counts as a successful refresh (one successful symbol lookup,
`Number.isFinite 0` holds), and the resulting snapshot carries a zero BTC
price — so a session using it does see a zero price. -/
theorem provider_zero_price_counterexample :
    (fetchBinanceSnapshot rawC7zero).isSome = true ∧
    refreshBinanceSnapshot initialSeedPrices rawC7zero "BTC" = 0 := by
  have hfetch : fetchBinanceSnapshot rawC7zero = some [("BTC", 0)] := by
    rw [fetchBinanceSnapshot]
    simp [binanceAssets, rawC7zero]
  constructor
  · rw [hfetch]
    rfl
  · rw [refreshBinanceSnapshot, hfetch]
    rfl

/-- C7 (amended): a failed external refresh (zero symbols obtained) for
either external provider leaves the cached snapshot exactly as it was;
a successful refresh yields the fetched per-symbol prices merged over the
default seed prices, so every symbol of the asset universe has a definite
value, and that value is positive provided every price the feed reported
is positive — the Binance per-symbol filter (`Number.isFinite`) does
admit a reported zero or negative price, see the counterexample. -/
theorem provider_refresh_amended :
    (∀ (old : String → ℚ) (raw : String → Option ℚ),
      fetchBinanceSnapshot raw = none → refreshBinanceSnapshot old raw = old) ∧
    (∀ (old : String → ℚ) (raw : String → Option ℚ),
      fetchCoingeckoSnapshot raw = none → refreshCoingeckoSnapshot old raw = old) ∧
    (∀ (old : String → ℚ) (raw : String → Option ℚ) (fetched : List (String × ℚ)),
      fetchBinanceSnapshot raw = some fetched →
      (∀ a v, raw a = some v → 0 < v) →
      ∀ sym ∈ assets, 0 < refreshBinanceSnapshot old raw sym) ∧
    (∀ (old : String → ℚ) (raw : String → Option ℚ) (fetched : List (String × ℚ)),
      fetchCoingeckoSnapshot raw = some fetched →
      (∀ a v, raw a = some v → 0 < v) →
      ∀ sym ∈ assets, 0 < refreshCoingeckoSnapshot old raw sym) := by
  refine ⟨?_, ?_, ?_, ?_⟩
  · intro old raw h
    rw [refreshBinanceSnapshot, h]
  · intro old raw h
    rw [refreshCoingeckoSnapshot, h]
  · intro old raw fetched hf hpos sym hsym
    rw [refreshBinanceSnapshot, hf]
    simp only [mergeOverSeed]
    cases hlook : fetched.lookup sym with
    | none => exact initialSeedPrices_pos sym hsym
    | some v =>
      have hmem : (sym, v) ∈ fetched := lookup_mem_pairs sym v fetched hlook
      rw [fetchBinanceSnapshot] at hf
      by_cases hempty : (binanceAssets.filterMap fun a => (raw a).map fun w => (a, w)).isEmpty
      · rw [if_pos hempty] at hf
        exact Option.noConfusion hf
      · rw [if_neg hempty] at hf
        have hmem' : (sym, v) ∈ binanceAssets.filterMap fun a => (raw a).map fun w => (a, w) := by
          rw [Option.some_inj.mp hf]
          exact hmem
        rw [List.mem_filterMap] at hmem'
        obtain ⟨a, -, ha⟩ := hmem'
        rw [Option.map_eq_some'] at ha
        obtain ⟨w, hraw, hpair⟩ := ha
        have hav : a = sym ∧ w = v := by
          constructor
          · exact congrArg Prod.fst hpair
          · exact congrArg Prod.snd hpair
        exact hpos sym v (hav.1 ▸ hav.2 ▸ hraw)
  · intro old raw fetched hf hpos sym hsym
    rw [refreshCoingeckoSnapshot, hf]
    simp only [mergeOverSeed]
    cases hlook : fetched.lookup sym with
    | none => exact initialSeedPrices_pos sym hsym
    | some v =>
      have hmem : (sym, v) ∈ fetched := lookup_mem_pairs sym v fetched hlook
      rw [fetchCoingeckoSnapshot] at hf
      by_cases hempty : (coingeckoAssets.filterMap fun a =>
          (raw a).bind fun w => if w = 0 then none else some (a, w)).isEmpty
      · rw [if_pos hempty] at hf
        exact Option.noConfusion hf
      · rw [if_neg hempty] at hf
        have hmem' : (sym, v) ∈ coingeckoAssets.filterMap fun a =>
            (raw a).bind fun w => if w = 0 then none else some (a, w) := by
          rw [Option.some_inj.mp hf]
          exact hmem
        rw [List.mem_filterMap] at hmem'
        obtain ⟨a, -, ha⟩ := hmem'
        rw [Option.bind_eq_some] at ha
        obtain ⟨w, hraw, hpair⟩ := ha
        by_cases hw : w = 0
        · rw [if_pos hw] at hpair
          exact Option.noConfusion hpair
        · rw [if_neg hw] at hpair
          simp only [Option.some.injEq] at hpair
          have hav : a = sym ∧ w = v := by
            constructor
            · exact congrArg Prod.fst hpair
            · exact congrArg Prod.snd hpair
          exact hpos sym v (hav.1 ▸ hav.2 ▸ hraw)

/-- Raw response in which every per-symbol request failed. -/
def rawC7fail : String → Option ℚ := fun _ => none

/-- Raw response reporting a positive BTC price only. -/
def rawC7good : String → Option ℚ := fun a => if a = "BTC" then some 60000 else none

/-- Witness for the amended C7: a totally failed fetch leaves the seed
snapshot untouched, and a successful fetch reporting only a positive BTC
price yields a positive price for BTC (reported) and for ETH (filled from
the seed defaults). -/
theorem provider_refresh_amended_witness :
    fetchBinanceSnapshot rawC7fail = none ∧
    refreshBinanceSnapshot initialSeedPrices rawC7fail = initialSeedPrices ∧
    0 < refreshBinanceSnapshot initialSeedPrices rawC7good "BTC" ∧
    0 < refreshBinanceSnapshot initialSeedPrices rawC7good "ETH" := by
  have hfail : fetchBinanceSnapshot rawC7fail = none := by
    rw [fetchBinanceSnapshot]
    simp [binanceAssets, rawC7fail]
  have hgood : fetchBinanceSnapshot rawC7good = some [("BTC", 60000)] := by
    rw [fetchBinanceSnapshot]
    simp [binanceAssets, rawC7good]
  have hpos : ∀ a v, rawC7good a = some v → 0 < v := by
    intro a v hv
    rw [rawC7good] at hv
    by_cases ha : a = "BTC"
    · rw [if_pos ha] at hv
      simp only [Option.some.injEq] at hv
      rw [← hv]
      norm_num
    · rw [if_neg ha] at hv
      exact Option.noConfusion hv
  have hBTC : "BTC" ∈ assets := by simp [assets]
  have hETH : "ETH" ∈ assets := by simp [assets]
  exact ⟨hfail, provider_refresh_amended.1 initialSeedPrices rawC7fail hfail,
    provider_refresh_amended.2.2.1 initialSeedPrices rawC7good [("BTC", 60000)] hgood hpos
      "BTC" hBTC,
    provider_refresh_amended.2.2.1 initialSeedPrices rawC7good [("BTC", 60000)] hgood hpos
      "ETH" hETH⟩

/-! ### Claim C8 — Hard-tier drift direction probability -/

theorem hardUpSet_eq : hardUpSet = Set.Icc (0 : ℝ) (35 / 100) := by
  ext r
  simp only [hardUpSet, hardStepIsUp, Set.mem_setOf_eq, Set.mem_Ico, Set.mem_Icc, not_lt]
  constructor
  · rintro ⟨⟨h0, -⟩, h35⟩
    exact ⟨h0, h35⟩
  · rintro ⟨h0, h35⟩
    exact ⟨⟨h0, lt_of_le_of_lt h35 (by norm_num)⟩, h35⟩

/-- Counterexample to C8 as stated: over a uniform roll in `[0, 1)`, the
set of rolls that produce an upward Hard step does not have measure 0.65
— the branch `roll > 0.35 ? -1 : 1` steps upward only for rolls in
`[0, 0.35]`. -/
theorem hard_up_probability_not_65 :
    MeasureTheory.volume hardUpSet ≠ ENNReal.ofReal (65 / 100) := by
  rw [hardUpSet_eq, Real.volume_Icc]
  intro h
  have h' : (35 : ℝ) / 100 - 0 = 65 / 100 :=
    (ENNReal.ofReal_eq_ofReal_iff (by norm_num) (by norm_num)).mp h
  norm_num at h'

/-- C8 (amended): in the Hard tier the step direction is +1 with
probability 0.35 and −1 with probability 0.65 (the measure of upward
rolls in `[0, 1)` is 0.35), with magnitude
`price * (u * 0.008 + 0.003 + |bias|)` for the injected uniform
magnitude draw `u` — i.e. `price * (uniform(0.003, 0.011) + |bias|)`. -/
theorem hard_drift_amended :
    MeasureTheory.volume hardUpSet = ENNReal.ofReal (35 / 100) ∧
    (∀ price bias roll u : ℚ, 35 / 100 < roll →
      applyDifficultyDrift price "Hard" bias roll u
        = price - (u * (8 / 1000) + 3 / 1000 + |bias|) * price) ∧
    (∀ price bias roll u : ℚ, ¬(35 / 100 < roll) →
      applyDifficultyDrift price "Hard" bias roll u
        = price + (u * (8 / 1000) + 3 / 1000 + |bias|) * price) := by
  refine ⟨?_, ?_, ?_⟩
  · rw [hardUpSet_eq, Real.volume_Icc]
    norm_num
  · intro price bias roll u h
    rw [applyDifficultyDrift]
    simp only [String.reduceEq, reduceIte, if_pos h]
    ring
  · intro price bias roll u h
    rw [applyDifficultyDrift]
    simp only [String.reduceEq, reduceIte, if_neg h]
    ring

/-- Witness for the amended C8: at roll `1/2 > 0.35` the Hard step is
downward with the stated magnitude; at roll `1/5 ≤ 0.35` it is upward. -/
theorem hard_drift_amended_witness :
    ((35 : ℚ) / 100 < 1 / 2 ∧
      applyDifficultyDrift 100 "Hard" 0 (1 / 2) 0
        = 100 - (0 * (8 / 1000) + 3 / 1000 + |(0 : ℚ)|) * 100) ∧
    (¬((35 : ℚ) / 100 < 1 / 5) ∧
      applyDifficultyDrift 100 "Hard" 0 (1 / 5) 0
        = 100 + (0 * (8 / 1000) + 3 / 1000 + |(0 : ℚ)|) * 100) := by
  constructor
  · exact ⟨by norm_num, hard_drift_amended.2.1 100 0 (1 / 2) 0 (by norm_num)⟩
  · exact ⟨by norm_num, hard_drift_amended.2.2 100 0 (1 / 5) 0 (by norm_num)⟩

/-! ### Claim C9 — error isolation between sessions in a tick -/

/-- Per-session update for the C9 evaluation: processing session `0`
throws, processing any other session `n` succeeds and updates it to
`n + 1`. -/
def tickFailC9 : ℤ → Except Unit ℤ := fun n =>
  if n = 0 then Except.error () else Except.ok (n + 1)

/-- Evaluation of the embedded tick loop at the failing input for C9: in
the registry `[0, 5]` the failing first session aborts the iteration, so
session `5` is NOT updated that tick (the claim demands `[0, 6]`); with
the failing session last (`[5, 0]`), the earlier session's update does
land; and the scheduler itself keeps ticking (the rejection is caught
once per tick), still without ever updating session `5` while session `0`
keeps throwing. -/
theorem tick_abort_on_session_error :
    runTickSessions tickFailC9 [0, 5] = [0, 5] ∧
    runTickSessions tickFailC9 [5, 0] = [6, 0] ∧
    runTicks tickFailC9 2 [0, 5] = [0, 5] := by
  refine ⟨?_, ?_, ?_⟩ <;> decide

end Cryptycoon
